import Mathlib

/-!
Verification of the ONE-Analysis/utilities scripts: shallow embeddings of
the chunked raster reclassifier (TreeCanopyReclass.py), the paginated
TIGERweb boundary fetcher (census_test.py / census_download.py), the
batched ACS attribute fetcher (census_bg_download.py), the GEOID join key
construction, the pandas left merge used to join boundaries with ACS
tables, and the CSV encoding fallback chain (persistent_poverty.py).
-/

namespace Utilities

/-! ## Python range with step

Embedding of the Python iteration `range(start, stop, step)` used by the
chunk loops `for j in range(0, src.height, CHUNK_SIZE)`.  The recursion is
fuelled by `stop - start`, which bounds the number of iterations whenever
`step > 0` (the only case exercised by the scripts: `CHUNK_SIZE = 25000`).
-/

def rangeStepAux (step : Nat) : Nat → Nat → Nat → List Nat
  | 0, _, _ => []
  | fuel + 1, start, stop =>
    if start < stop then start :: rangeStepAux step fuel (start + step) stop else []

def rangeFrom (start stop step : Nat) : List Nat :=
  rangeStepAux step (stop - start) start stop

theorem rangeStepAux_succ (step : Nat) (hstep : 0 < step) :
    ∀ n start stop, stop - start ≤ n →
      rangeStepAux step (n + 1) start stop = rangeStepAux step n start stop := by
  intro n
  induction n with
  | zero =>
    intro start stop h
    have hge : ¬ start < stop := by omega
    simp [rangeStepAux, hge]
  | succ n ih =>
    intro start stop h
    by_cases hlt : start < stop
    · simp only [rangeStepAux, if_pos hlt]
      exact congrArg (start :: ·) (ih (start + step) stop (by omega))
    · simp [rangeStepAux, hlt]

theorem rangeStepAux_fuel (step : Nat) (hstep : 0 < step) :
    ∀ fuel start stop, stop - start ≤ fuel →
      rangeStepAux step fuel start stop = rangeFrom start stop step := by
  intro fuel
  induction fuel with
  | zero =>
    intro start stop h
    unfold rangeFrom
    rw [show stop - start = 0 by omega]
  | succ n ih =>
    intro start stop h
    by_cases he : stop - start = n + 1
    · unfold rangeFrom
      rw [he]
    · have h' : stop - start ≤ n := by omega
      rw [rangeStepAux_succ step hstep n start stop h']
      exact ih start stop h'

theorem rangeFrom_of_lt (start stop step : Nat) (hstep : 0 < step) (h : start < stop) :
    rangeFrom start stop step = start :: rangeFrom (start + step) stop step := by
  have h1 : stop - start = (stop - start - 1) + 1 := by omega
  have h2 : stop - (start + step) ≤ stop - start - 1 := by omega
  unfold rangeFrom
  rw [h1]
  simp only [rangeStepAux, if_pos h]
  rw [rangeStepAux_fuel step hstep _ _ _ h2]
  rfl

theorem rangeFrom_of_ge (start stop step : Nat) (h : stop ≤ start) :
    rangeFrom start stop step = [] := by
  have h0 : stop - start = 0 := by omega
  simp [rangeFrom, h0, rangeStepAux]

theorem ceilDiv_succ (c d : Nat) (hc : 0 < c) (hd : 0 < d) :
    (d + c - 1) / c = (d - c + c - 1) / c + 1 := by
  rcases le_or_lt c d with hcd | hcd
  · have h1 : d - c + c - 1 = d - 1 := by omega
    have h3 : d + c - 1 = (d - 1) + c := by omega
    rw [h1, h3, Nat.add_div_right _ hc]
  · have h1 : d - c = 0 := by omega
    rw [h1]
    have h2 : (0 + c - 1) / c = 0 := Nat.div_eq_of_lt (by omega)
    rw [h2]
    have h3 : d + c - 1 = (d - 1) + c := by omega
    rw [h3, Nat.add_div_right _ hc, Nat.div_eq_of_lt (by omega)]

/-- Number of iterations of a Python range loop: the ceiling of
`(stop - start) / step`, matching the `total_chunks` computation
`((src.height + CHUNK_SIZE - 1) // CHUNK_SIZE)` in TreeCanopyReclass.py. -/
theorem rangeFrom_length (step : Nat) (hstep : 0 < step) (start stop : Nat) :
    (rangeFrom start stop step).length = (stop - start + step - 1) / step := by
  by_cases h : start < stop
  · rw [rangeFrom_of_lt start stop step hstep h, List.length_cons,
        rangeFrom_length step hstep (start + step) stop]
    have hd : 0 < stop - start := by omega
    have h1 : stop - (start + step) = stop - start - step := by omega
    rw [h1, ceilDiv_succ step (stop - start) hstep hd]
  · rw [rangeFrom_of_ge start stop step (by omega), show stop - start = 0 by omega]
    simp only [List.length_nil]
    exact (Nat.div_eq_of_lt (by omega)).symm
termination_by stop - start
decreasing_by omega

theorem mem_rangeFrom (step : Nat) (hstep : 0 < step) (start stop x : Nat)
    (hx : x ∈ rangeFrom start stop step) : start ≤ x ∧ x < stop := by
  by_cases h : start < stop
  · rw [rangeFrom_of_lt start stop step hstep h] at hx
    rcases List.mem_cons.mp hx with h1 | h1
    · omega
    · have := mem_rangeFrom step hstep (start + step) stop x h1
      omega
  · rw [rangeFrom_of_ge start stop step (by omega)] at hx
    simp at hx
termination_by stop - start
decreasing_by omega

/-- In a step-`c` range, exactly one start `i` covers a point `x` of
`[start, stop)` with `i ≤ x < min (i + c) stop`. -/
theorem rangeFrom_countP_cover (c x : Nat) (hc : 0 < c) (start stop : Nat) :
    (rangeFrom start stop c).countP (fun i => decide (i ≤ x ∧ x < i + c ∧ x < stop)) =
      if start ≤ x ∧ x < stop then 1 else 0 := by
  by_cases h : start < stop
  · rw [rangeFrom_of_lt start stop c hc h, List.countP_cons,
        rangeFrom_countP_cover c x hc (start + c) stop]
    simp only [decide_eq_true_eq]
    split_ifs <;> omega
  · rw [rangeFrom_of_ge start stop c (by omega)]
    simp only [List.countP_nil]
    split_ifs <;> omega
termination_by stop - start
decreasing_by omega

/-! ## TreeCanopyReclass.py — chunked window partitioning

The loop
`for j in range(0, src.height, CHUNK_SIZE): for i in range(0, src.width, CHUNK_SIZE)`
builds `rasterio.windows.Window(i, j, win_width, win_height)` with
`win_width = min(CHUNK_SIZE, src.width - i)` and
`win_height = min(CHUNK_SIZE, src.height - j)`.
-/

structure Window where
  col : Nat
  row : Nat
  width : Nat
  height : Nat
deriving DecidableEq, Repr

def windows (W H C : Nat) : List Window :=
  (rangeFrom 0 H C).flatMap (fun j =>
    (rangeFrom 0 W C).map (fun i =>
      Window.mk i j (min C (W - i)) (min C (H - j))))

/-- Pixel `(x, y)` lies inside window `w` (column interval × row interval). -/
def Window.containsPix (w : Window) (x y : Nat) : Bool :=
  decide (w.col ≤ x ∧ x < w.col + w.width ∧ w.row ≤ y ∧ y < w.row + w.height)

theorem mem_windows (W H C : Nat) (w : Window) :
    w ∈ windows W H C ↔
      ∃ j ∈ rangeFrom 0 H C, ∃ i ∈ rangeFrom 0 W C,
        w = Window.mk i j (min C (W - i)) (min C (H - j)) := by
  unfold windows
  simp only [List.mem_flatMap, List.mem_map]
  constructor
  · rintro ⟨j, hj, i, hi, rfl⟩
    exact ⟨j, hj, i, hi, rfl⟩
  · rintro ⟨j, hj, i, hi, rfl⟩
    exact ⟨j, hj, i, hi, rfl⟩

/-- No generated window extends past the `(W, H)` grid bounds. -/
theorem windows_bounded (W H C : Nat) (hC : 0 < C) (w : Window)
    (hw : w ∈ windows W H C) : w.col + w.width ≤ W ∧ w.row + w.height ≤ H := by
  rcases (mem_windows W H C w).mp hw with ⟨j, hj, i, hi, rfl⟩
  have hjb := mem_rangeFrom C hC 0 H j hj
  have hib := mem_rangeFrom C hC 0 W i hi
  constructor <;> simp <;> omega

/-- The number of generated windows equals the precomputed
`total_chunks = ceil(H/C) * ceil(W/C)`. -/
theorem windows_length (W H C : Nat) (hC : 0 < C) :
    (windows W H C).length = ((H + C - 1) / C) * ((W + C - 1) / C) := by
  unfold windows
  rw [List.length_flatMap]
  have hrow : ∀ j : Nat,
      ((rangeFrom 0 W C).map (fun i =>
        Window.mk i j (min C (W - i)) (min C (H - j)))).length = (W + C - 1) / C := by
    intro j
    rw [List.length_map, rangeFrom_length C hC 0 W, Nat.sub_zero]
  calc ((rangeFrom 0 H C).map fun j =>
          ((rangeFrom 0 W C).map fun i =>
            Window.mk i j (min C (W - i)) (min C (H - j))).length).sum
      = ((rangeFrom 0 H C).map fun _ => (W + C - 1) / C).sum := by
        exact congrArg List.sum (List.map_congr_left fun j _ => hrow j)
    _ = (rangeFrom 0 H C).length * ((W + C - 1) / C) := by
        rw [List.map_const', List.sum_replicate, smul_eq_mul]
    _ = ((H + C - 1) / C) * ((W + C - 1) / C) := by
        rw [rangeFrom_length C hC 0 H, Nat.sub_zero]

theorem sum_map_ite_eq_countP {α : Type} (p : α → Bool) (l : List α) :
    (l.map (fun a => if p a then 1 else 0)).sum = l.countP p := by
  induction l with
  | nil => simp
  | cons a l ih => rw [List.map_cons, List.sum_cons, List.countP_cons, ih]; omega

/-- Every in-bounds pixel is covered by exactly one generated window. -/
theorem windows_cover_once (W H C : Nat) (hC : 0 < C) (x y : Nat)
    (hx : x < W) (hy : y < H) :
    (windows W H C).countP (fun w => w.containsPix x y) = 1 := by
  unfold windows
  rw [List.countP_flatMap]
  have hinner : ∀ j ∈ rangeFrom 0 H C,
      ((rangeFrom 0 W C).map (fun i =>
        Window.mk i j (min C (W - i)) (min C (H - j)))).countP
          (fun w => w.containsPix x y) =
        if j ≤ y ∧ y < j + C ∧ y < H then 1 else 0 := by
    intro j hj
    have hjb := mem_rangeFrom C hC 0 H j hj
    rw [List.countP_map]
    by_cases hrow : j ≤ y ∧ y < j + C ∧ y < H
    · rw [if_pos hrow]
      have hcong : ∀ i ∈ rangeFrom 0 W C,
          (((fun w => Window.containsPix w x y) ∘ fun i =>
            Window.mk i j (min C (W - i)) (min C (H - j))) i = true ↔
          (fun i => decide (i ≤ x ∧ x < i + C ∧ x < W)) i = true) := by
        intro i hi
        have hib := mem_rangeFrom C hC 0 W i hi
        simp only [Function.comp, Window.containsPix, decide_eq_true_eq]
        omega
      rw [List.countP_congr hcong, rangeFrom_countP_cover C x hC 0 W]
      simp [hx]
    · rw [if_neg hrow]
      apply List.countP_eq_zero.mpr
      intro i hi
      simp only [Function.comp, Window.containsPix, decide_eq_true_eq]
      omega
  calc ((rangeFrom 0 H C).map fun j =>
          ((rangeFrom 0 W C).map fun i =>
            Window.mk i j (min C (W - i)) (min C (H - j))).countP
            (fun w => w.containsPix x y)).sum
      = ((rangeFrom 0 H C).map fun j => if j ≤ y ∧ y < j + C ∧ y < H then 1 else 0).sum := by
        exact congrArg List.sum (List.map_congr_left hinner)
    _ = (rangeFrom 0 H C).countP (fun j => decide (j ≤ y ∧ y < j + C ∧ y < H)) := by
        rw [← sum_map_ite_eq_countP]
        refine congrArg List.sum (List.map_congr_left fun j _ => ?_)
        by_cases h : j ≤ y ∧ y < j + C ∧ y < H <;> simp [h]
    _ = 1 := by rw [rangeFrom_countP_cover C y hC 0 H]; simp [hy]

/-- Claim C1: for every raster of dimensions (W,H) with W,H > 0 and every chunk
edge C > 0, the windows generated by the reclassifier's partitioning loop tile
the grid exactly — every pixel lies in exactly one window, no window extends
past (W,H), and the number of windows equals the precomputed total
ceil(H/C) * ceil(W/C); in particular for W = H = 10000 and C = 4096 there are
9 windows, the last row/column windows sized 1808. -/
theorem claim_C1_window_partition (W H C : Nat) (_hW : 0 < W) (_hH : 0 < H) (hC : 0 < C) :
    (∀ x y, x < W → y < H → (windows W H C).countP (fun w => w.containsPix x y) = 1)
    ∧ (∀ w ∈ windows W H C, w.col + w.width ≤ W ∧ w.row + w.height ≤ H)
    ∧ (windows W H C).length = ((H + C - 1) / C) * ((W + C - 1) / C)
    ∧ (windows 10000 10000 4096).length = 9
    ∧ windows 10000 10000 4096 =
        [⟨0, 0, 4096, 4096⟩, ⟨4096, 0, 4096, 4096⟩, ⟨8192, 0, 1808, 4096⟩,
         ⟨0, 4096, 4096, 4096⟩, ⟨4096, 4096, 4096, 4096⟩, ⟨8192, 4096, 1808, 4096⟩,
         ⟨0, 8192, 4096, 1808⟩, ⟨4096, 8192, 4096, 1808⟩, ⟨8192, 8192, 1808, 1808⟩] := by
  refine ⟨fun x y hx hy => windows_cover_once W H C hC x y hx hy,
          fun w hw => windows_bounded W H C hC w hw,
          windows_length W H C hC, by decide, by decide⟩

/-- Witness for C1 at the spec's scenario W = H = 10000, C = 4096. -/
theorem claim_C1_window_partition_witness :
    (∀ x y, x < 10000 → y < 10000 →
      (windows 10000 10000 4096).countP (fun w => w.containsPix x y) = 1)
    ∧ (∀ w ∈ windows 10000 10000 4096,
        w.col + w.width ≤ 10000 ∧ w.row + w.height ≤ 10000)
    ∧ (windows 10000 10000 4096).length = ((10000 + 4096 - 1) / 4096) * ((10000 + 4096 - 1) / 4096)
    ∧ (windows 10000 10000 4096).length = 9
    ∧ windows 10000 10000 4096 =
        [⟨0, 0, 4096, 4096⟩, ⟨4096, 0, 4096, 4096⟩, ⟨8192, 0, 1808, 4096⟩,
         ⟨0, 4096, 4096, 4096⟩, ⟨4096, 4096, 4096, 4096⟩, ⟨8192, 4096, 1808, 4096⟩,
         ⟨0, 8192, 4096, 1808⟩, ⟨4096, 8192, 4096, 1808⟩, ⟨8192, 8192, 1808, 1808⟩] :=
  claim_C1_window_partition 10000 10000 4096 (by decide) (by decide) (by decide)

/-! ## TreeCanopyReclass.py — per-window reclassification

`reclass = np.where(data == 1, 1, 0).astype('uint8')`: a pixel maps to 1
exactly when its value equals the sentinel 1, else 0; the cast to uint8
reduces modulo 256.  Each window's result is written back to the same
window coordinates of the output (`dst.write(reclass, 1, window=window)`),
which we model as an overwrite of the output function on that window.
-/

def reclassPixel (v : Nat) : Nat := (if v = 1 then 1 else 0) % 256

def writeWindow (f : Nat → Nat → Nat) (out : Nat → Nat → Nat) (w : Window) :
    Nat → Nat → Nat :=
  fun x y => if w.containsPix x y then reclassPixel (f x y) else out x y

/-- Output raster of the chunked run: all windows processed in loop order,
starting from a blank output. -/
def chunkedReclass (f : Nat → Nat → Nat) (W H C : Nat) : Nat → Nat → Nat :=
  (windows W H C).foldl (writeWindow f) (fun _ _ => 0)

theorem foldl_writeWindow (f : Nat → Nat → Nat) (x y : Nat) :
    ∀ (ws : List Window) (g : Nat → Nat → Nat),
      (ws.foldl (writeWindow f) g) x y =
        if ws.any (fun w => w.containsPix x y) then reclassPixel (f x y) else g x y := by
  intro ws
  induction ws with
  | nil => intro g; simp
  | cons w ws ih =>
    intro g
    rw [List.foldl_cons, ih (writeWindow f g w)]
    by_cases hw : w.containsPix x y = true
    · by_cases hrest : ws.any (fun w => w.containsPix x y) = true <;>
        simp [writeWindow, hw, hrest]
    · by_cases hrest : ws.any (fun w => w.containsPix x y) = true <;>
        simp [writeWindow, hw, hrest]

/-- Every in-bounds pixel of the chunked output equals the pointwise
reclassification of the input pixel, for any chunk size. -/
theorem chunkedReclass_eq (f : Nat → Nat → Nat) (W H C x y : Nat)
    (hC : 0 < C) (hx : x < W) (hy : y < H) :
    chunkedReclass f W H C x y = reclassPixel (f x y) := by
  unfold chunkedReclass
  rw [foldl_writeWindow f x y (windows W H C) (fun _ _ => 0)]
  have hcov := windows_cover_once W H C hC x y hx hy
  have hpos : 0 < (windows W H C).countP (fun w => w.containsPix x y) := by omega
  rcases List.countP_pos_iff.mp hpos with ⟨w, hw, hwp⟩
  rw [if_pos (List.any_eq_true.mpr ⟨w, hw, hwp⟩)]

/-- Claim C2: the per-window reclassification maps v to 1 iff v equals the
sentinel 1 and to 0 otherwise; every output pixel is in {0,1} and byte-valued;
and the chunked result is independent of the window partition — processing
with any chunk edge yields the same output as pointwise whole-raster
reclassification. -/
theorem claim_C2_reclassification (f : Nat → Nat → Nat) (v W H C C' x y : Nat)
    (hC : 0 < C) (hC' : 0 < C') (hx : x < W) (hy : y < H) :
    chunkedReclass f W H C x y = reclassPixel (f x y)
    ∧ chunkedReclass f W H C x y = chunkedReclass f W H C' x y
    ∧ (reclassPixel v = 1 ↔ v = 1)
    ∧ (reclassPixel v = 0 ∨ reclassPixel v = 1)
    ∧ reclassPixel v < 256 := by
  refine ⟨chunkedReclass_eq f W H C x y hC hx hy, ?_, ?_, ?_, ?_⟩
  · rw [chunkedReclass_eq f W H C x y hC hx hy, chunkedReclass_eq f W H C' x y hC' hx hy]
  · unfold reclassPixel
    by_cases hv : v = 1 <;> simp [hv]
  · unfold reclassPixel
    by_cases hv : v = 1 <;> simp [hv]
  · unfold reclassPixel
    by_cases hv : v = 1 <;> simp [hv]

/-- Witness for C2 at a concrete raster: f x y = x * y on a 10 × 10 grid,
chunk edges 4 and 7, pixel (9, 5), probe value v = 3. -/
theorem claim_C2_reclassification_witness :
    chunkedReclass (fun x y => x * y) 10 10 4 9 5 = reclassPixel ((fun x y : Nat => x * y) 9 5)
    ∧ chunkedReclass (fun x y => x * y) 10 10 4 9 5 = chunkedReclass (fun x y => x * y) 10 10 7 9 5
    ∧ (reclassPixel 3 = 1 ↔ (3 : Nat) = 1)
    ∧ (reclassPixel 3 = 0 ∨ reclassPixel 3 = 1)
    ∧ reclassPixel 3 < 256 :=
  claim_C2_reclassification (fun x y => x * y) 3 10 10 4 7 9 5
    (by decide) (by decide) (by decide) (by decide)

/-! ## census_test.py / census_download.py — paginated TIGERweb fetch

Both scripts run the same loop: request the layer at the current
`resultOffset`; if the returned feature batch is empty, stop; otherwise
append the batch to the accumulated features; if the batch holds fewer
features than `resultRecordCount`, stop (last page); otherwise advance the
offset by `resultRecordCount` and repeat.  The server is modelled as the
list of successive page responses; the fetcher returns the accumulated
features together with the list of offsets actually requested.
-/

def fetchPages {α : Type} (P : Nat) (offset : Nat) : List (List α) → List α × List Nat
  | [] => ([], [])
  | batch :: rest =>
    if batch.length = 0 then ([], [offset])
    else if batch.length < P then (batch, [offset])
    else
      let r := fetchPages P (offset + P) rest
      (batch ++ r.1, offset :: r.2)

theorem fetchPages_spec {α : Type} (P : Nat) (_hP : 0 < P) :
    ∀ (front : List (List α)) (last : List α) (off : Nat),
      (∀ p ∈ front, P ≤ p.length) → last.length < P →
      fetchPages P off (front ++ [last]) =
        ((front ++ [last]).flatten,
          (List.range (front.length + 1)).map (fun m => off + m * P)) := by
  intro front
  induction front with
  | nil =>
    intro last off _ hlast
    simp only [List.nil_append, List.length_nil, Nat.zero_add]
    by_cases h0 : last.length = 0
    · have hl : last = [] := List.length_eq_zero.mp h0
      subst hl
      simp [fetchPages, List.range_succ]
    · simp [fetchPages, h0, hlast, List.range_succ]
  | cons b front ih =>
    intro last off hfront hlast
    have hb : P ≤ b.length := hfront b (List.mem_cons_self b front)
    have hb0 : ¬ b.length = 0 := by omega
    have hbP : ¬ b.length < P := by omega
    have hrest : ∀ p ∈ front, P ≤ p.length := fun p hp =>
      hfront p (List.mem_cons_of_mem b hp)
    have hmaps : (List.range (front.length + 1 + 1)).map (fun m => off + m * P)
        = off :: (List.range (front.length + 1)).map (fun m => (off + P) + m * P) := by
      rw [List.range_succ_eq_map, List.map_cons, List.map_map]
      refine congrArg₂ List.cons (by simp) (List.map_congr_left fun m _ => ?_)
      simp only [Function.comp_apply, Nat.succ_eq_add_one]
      ring
    calc fetchPages P off ((b :: front) ++ [last])
        = (b ++ (fetchPages P (off + P) (front ++ [last])).1,
           off :: (fetchPages P (off + P) (front ++ [last])).2) := by
          simp only [List.cons_append, fetchPages, if_neg hb0, if_neg hbP, List.append_eq]
      _ = (b ++ (front ++ [last]).flatten,
           off :: (List.range (front.length + 1)).map (fun m => (off + P) + m * P)) := by
          rw [ih last (off + P) hrest hlast]
      _ = (((b :: front) ++ [last]).flatten,
           (List.range ((b :: front).length + 1)).map (fun m => off + m * P)) := by
          rw [List.cons_append, List.flatten_cons, List.length_cons, hmaps]

/-- Claim C3: for paged responses with feature counts [n1, ..., nk] where nk is
the first count strictly below the page size P (a zero count also stops the
loop and contributes no features), the fetcher issues requests at offsets
0, P, 2P, ..., stops after page k, and returns exactly n1 + ... + nk features
concatenated in page order and, within each page, in arrival order. -/
theorem claim_C3_paged_fetch {α : Type} (P : Nat) (front : List (List α)) (last : List α)
    (hP : 0 < P) (hfront : ∀ p ∈ front, P ≤ p.length) (hlast : last.length < P) :
    fetchPages P 0 (front ++ [last]) =
      ((front ++ [last]).flatten, (List.range (front.length + 1)).map (fun m => m * P))
    ∧ ((front ++ [last]).flatten).length = ((front ++ [last]).map List.length).sum
    ∧ (fetchPages P 0 (front ++ [last])).2.length = front.length + 1 := by
  have h := fetchPages_spec P hP front last 0 hfront hlast
  have hzero : (List.range (front.length + 1)).map (fun m => 0 + m * P)
      = (List.range (front.length + 1)).map (fun m => m * P) :=
    List.map_congr_left fun m _ => by omega
  rw [hzero] at h
  exact ⟨h, List.length_flatten _, by rw [h]; simp⟩

/-- Witness for C3: page size 3, responses of sizes [3, 3, 1]. -/
theorem claim_C3_paged_fetch_witness :
    fetchPages 3 0 ([[1, 2, 3], [4, 5, 6]] ++ [[7]]) =
      (([[1, 2, 3], [4, 5, 6]] ++ [[7]]).flatten,
        (List.range ([[1, 2, 3], [4, 5, 6]].length + 1)).map (fun m => m * 3))
    ∧ (([[1, 2, 3], [4, 5, 6]] ++ [([7] : List Nat)]).flatten).length =
        (([[1, 2, 3], [4, 5, 6]] ++ [[7]]).map List.length).sum
    ∧ (fetchPages 3 0 ([[1, 2, 3], [4, 5, 6]] ++ [([7] : List Nat)])).2.length =
        [[1, 2, 3], [4, 5, 6]].length + 1 :=
  claim_C3_paged_fetch 3 [[1, 2, 3], [4, 5, 6]] [7] (by decide) (by decide) (by decide)

/-! ## census_bg_download.py — fetch_acs_batch retry loop

`for retry in range(max_retries): try GET; on status 200 return the JSON;
otherwise (or on exception) sleep 2 ** retry; after the loop return None.`
The network is modelled as a function from the attempt index to the
optional successful response (`none` covers both a non-200 status and a
raised exception — the `except` clause catches it, so nothing escapes).
The model returns the result, the number of attempts issued, and the list
of back-off delays slept.
-/

def retryGo {α : Type} (outcome : Nat → Option α) : Nat → Nat → Option α × Nat × List Nat
  | _, 0 => (none, 0, [])
  | retry, rem + 1 =>
    match outcome retry with
    | some v => (some v, 1, [])
    | none =>
      let r := retryGo outcome (retry + 1) rem
      (r.1, r.2.1 + 1, 2 ^ retry :: r.2.2)

def fetch_acs_batch {α : Type} (outcome : Nat → Option α) : Option α × Nat × List Nat :=
  retryGo outcome 0 5

theorem retryGo_attempts_le {α : Type} (outcome : Nat → Option α) :
    ∀ rem retry, (retryGo outcome retry rem).2.1 ≤ rem := by
  intro rem
  induction rem with
  | zero => intro retry; simp [retryGo]
  | succ n ih =>
    intro retry
    cases h : outcome retry <;> simp [retryGo, h]
    exact ih (retry + 1)

theorem retryGo_none_iff {α : Type} (outcome : Nat → Option α) :
    ∀ rem retry, (retryGo outcome retry rem).1 = none ↔
      ∀ i, retry ≤ i → i < retry + rem → outcome i = none := by
  intro rem
  induction rem with
  | zero => intro retry; simp [retryGo]; omega
  | succ n ih =>
    intro retry
    cases h : outcome retry with
    | some v =>
      simp only [retryGo, h]
      constructor
      · intro hc; exact absurd hc (by simp)
      · intro hall
        have := hall retry (le_refl retry) (by omega)
        rw [h] at this
        exact absurd this (by simp)
    | none =>
      simp only [retryGo, h]
      rw [ih (retry + 1)]
      constructor
      · intro hall i h1 h2
        by_cases hi : i = retry
        · subst hi; exact h
        · exact hall i (by omega) (by omega)
      · intro hall i h1 h2
        exact hall i (by omega) (by omega)

theorem retryGo_all_fail {α : Type} (outcome : Nat → Option α) :
    ∀ rem retry, (∀ i, retry ≤ i → i < retry + rem → outcome i = none) →
      retryGo outcome retry rem =
        (none, rem, (List.range rem).map (fun m => 2 ^ (retry + m))) := by
  intro rem
  induction rem with
  | zero => intro retry _; simp [retryGo]
  | succ n ih =>
    intro retry hall
    have h0 : outcome retry = none := hall retry (le_refl retry) (by omega)
    have hrest := ih (retry + 1) (fun i h1 h2 => hall i (by omega) (by omega))
    simp only [retryGo, h0, hrest]
    refine congrArg (Prod.mk none) (congrArg (Prod.mk (n + 1)) ?_)
    rw [List.range_succ_eq_map, List.map_cons, List.map_map]
    refine congrArg₂ List.cons (by simp) (List.map_congr_left fun m _ => ?_)
    simp only [Function.comp_apply, Nat.succ_eq_add_one]
    ring_nf

theorem retryGo_sleeps_pattern {α : Type} (outcome : Nat → Option α) :
    ∀ rem retry, (retryGo outcome retry rem).2.2 =
      (List.range (retryGo outcome retry rem).2.2.length).map (fun m => 2 ^ (retry + m)) := by
  intro rem
  induction rem with
  | zero => intro retry; simp [retryGo]
  | succ n ih =>
    intro retry
    cases h : outcome retry with
    | some v => simp [retryGo, h]
    | none =>
      simp only [retryGo, h, List.length_cons]
      rw [List.range_succ_eq_map, List.map_cons, List.map_map]
      refine congrArg₂ List.cons (by simp) ?_
      refine (ih (retry + 1)).trans (List.map_congr_left fun m _ => ?_)
      simp only [Function.comp_apply, Nat.succ_eq_add_one]
      exact congrArg (fun e => 2 ^ e) (by omega)

/-- Claim C7: the retry policy performs at most 5 attempts, sleeping between
attempts with exponentially doubling delays 2^retry starting from the base
unit, and after exhausting all attempts returns the failure signal None
(every exception is caught inside the loop, so none escapes). -/
theorem claim_C7_retry_policy {α : Type} (outcome : Nat → Option α) :
    (fetch_acs_batch outcome).2.1 ≤ 5
    ∧ ((fetch_acs_batch outcome).1 = none ↔ ∀ i, i < 5 → outcome i = none)
    ∧ ((∀ i, i < 5 → outcome i = none) →
        fetch_acs_batch outcome = (none, 5, [1, 2, 4, 8, 16]))
    ∧ (fetch_acs_batch outcome).2.2 =
        (List.range (fetch_acs_batch outcome).2.2.length).map (fun m => 2 ^ m) := by
  refine ⟨retryGo_attempts_le outcome 5 0, ?_, ?_, ?_⟩
  · rw [fetch_acs_batch, retryGo_none_iff outcome 5 0]
    constructor
    · intro hall i hi; exact hall i (by omega) (by omega)
    · intro hall i _ hi; exact hall i (by omega)
  · intro hall
    rw [fetch_acs_batch, retryGo_all_fail outcome 5 0 (fun i _ h2 => hall i (by omega))]
    refine congrArg (Prod.mk none) (congrArg (Prod.mk 5) ?_)
    decide
  · rw [fetch_acs_batch]
    exact (retryGo_sleeps_pattern outcome 5 0).trans
      (List.map_congr_left fun m _ => by rw [Nat.zero_add])

/-- Witness for C7 at the always-failing network. -/
theorem claim_C7_retry_policy_witness :
    (fetch_acs_batch (fun _ => (none : Option Nat))).2.1 ≤ 5
    ∧ ((fetch_acs_batch (fun _ => (none : Option Nat))).1 = none ↔
        ∀ i, i < 5 → (fun _ => (none : Option Nat)) i = none)
    ∧ ((∀ i, i < 5 → (fun _ => (none : Option Nat)) i = none) →
        fetch_acs_batch (fun _ => (none : Option Nat)) = (none, 5, [1, 2, 4, 8, 16]))
    ∧ (fetch_acs_batch (fun _ => (none : Option Nat))).2.2 =
        (List.range (fetch_acs_batch (fun _ => (none : Option Nat))).2.2.length).map
          (fun m => 2 ^ m) :=
  claim_C7_retry_policy (fun _ => (none : Option Nat))

/-! ## GEOID construction — census_download.py and census_bg_download.py

Python `str.zfill(w)` left-pads a string with '0' up to width `w` and
leaves strings of length ≥ w unchanged (the FIPS components here carry no
sign).  census_download.py builds the tract GEOID on the tabular side as
`state.zfill(2) + county.zfill(3) + tract.zfill(6)` and on the TIGER
boundary side as `STATEFP.zfill(2) + COUNTYFP.zfill(3) + TRACTCE.zfill(6)`;
census_bg_download.py appends the unpadded block-group digit on both sides.
-/

def zfill (w : Nat) (s : String) : String :=
  String.mk (List.replicate (w - s.length) '0' ++ s.data)

def acs_geoid (state county tract : String) : String :=
  zfill 2 state ++ zfill 3 county ++ zfill 6 tract

def tiger_geoid (statefp countyfp tractce : String) : String :=
  zfill 2 statefp ++ zfill 3 countyfp ++ zfill 6 tractce

def bg_acs_geoid (state county tract blkgrp : String) : String :=
  zfill 2 state ++ zfill 3 county ++ zfill 6 tract ++ blkgrp

def bg_tiger_geoid (state county tract blkgrp : String) : String :=
  zfill 2 state ++ zfill 3 county ++ zfill 6 tract ++ blkgrp

theorem zfill_length (w : Nat) (s : String) : (zfill w s).length = max w s.length := by
  show (List.replicate (w - s.length) '0' ++ s.data).length = max w s.length
  rw [List.length_append, List.length_replicate]
  show w - s.data.length + s.data.length = max w s.data.length
  omega

/-- Claim C8: for components of valid digit lengths the composite geographic
code zero-pads state to 2, county to 3 and tract to 6 characters and
concatenates without separator, yielding a fixed total length of 11 for a
tract-level code (11 + the block-group suffix length at block-group level),
and the code is built identically on the boundary and the tabular side. -/
theorem claim_C8_geoid (state county tract blkgrp : String)
    (hs : state.length ≤ 2) (hc : county.length ≤ 3) (ht : tract.length ≤ 6) :
    acs_geoid state county tract = tiger_geoid state county tract
    ∧ (acs_geoid state county tract).length = 11
    ∧ bg_acs_geoid state county tract blkgrp = bg_tiger_geoid state county tract blkgrp
    ∧ (bg_acs_geoid state county tract blkgrp).length = 11 + blkgrp.length := by
  refine ⟨rfl, ?_, rfl, ?_⟩
  · rw [acs_geoid, String.length_append, String.length_append,
        zfill_length, zfill_length, zfill_length]
    omega
  · rw [bg_acs_geoid, String.length_append, String.length_append, String.length_append,
        zfill_length, zfill_length, zfill_length]
    omega

/-- Witness for C8 at a Bronx tract: state "36", county "5", tract "100",
block group "1". -/
theorem claim_C8_geoid_witness :
    acs_geoid "36" "5" "100" = tiger_geoid "36" "5" "100"
    ∧ (acs_geoid "36" "5" "100").length = 11
    ∧ bg_acs_geoid "36" "5" "100" "1" = bg_tiger_geoid "36" "5" "100" "1"
    ∧ (bg_acs_geoid "36" "5" "100" "1").length = 11 + ("1" : String).length :=
  claim_C8_geoid "36" "5" "100" "1" (by decide) (by decide) (by decide)

/-! ## persistent_poverty.py — CSV encoding fallback chain

`pd.read_csv(path)` is tried with the default UTF-8 decoder; on
`UnicodeDecodeError` the file is re-read with encoding 'latin-1'; if that
also raises `UnicodeDecodeError`, with 'cp1252'.  Each decoder is modelled
as the optional table it yields on the file's bytes (`none` = decode
error).  The chain returns the result together with the index of the last
decoder consulted. -/

def load_poverty_csv {α : Type} (utf8 latin1 cp1252 : Option α) : Option α × Nat :=
  match utf8 with
  | some t => (some t, 0)
  | none =>
    match latin1 with
    | some t => (some t, 1)
    | none =>
      match cp1252 with
      | some t => (some t, 2)
      | none => (none, 2)

/-- Latin-1 decoding of a byte sequence: every byte value below 256 maps to
the code point of the same number, so decoding succeeds on every byte
string. -/
def latin1_decode (bs : List Nat) : Option (List Nat) :=
  if bs.all (fun b => decide (b < 256)) then some bs else none

/-- Claim C9: the poverty-tract CSV loader tries UTF-8, then latin-1, then
cp1252, and succeeds for every file readable under any encoding of the
chain, returning the first successful decode. -/
theorem claim_C9_encoding_chain {α : Type} (utf8 latin1 cp1252 : Option α)
    (h : utf8.isSome ∨ latin1.isSome ∨ cp1252.isSome) :
    (load_poverty_csv utf8 latin1 cp1252).1.isSome
    ∧ (∀ t, utf8 = some t → load_poverty_csv utf8 latin1 cp1252 = (some t, 0))
    ∧ (∀ t, utf8 = none → latin1 = some t → load_poverty_csv utf8 latin1 cp1252 = (some t, 1))
    ∧ (∀ t, utf8 = none → latin1 = none → cp1252 = some t →
        load_poverty_csv utf8 latin1 cp1252 = (some t, 2)) := by
  refine ⟨?_, ?_, ?_, ?_⟩
  · cases utf8 <;> cases latin1 <;> cases cp1252 <;> simp_all [load_poverty_csv]
  · intro t ht; subst ht; rfl
  · intro t hu hl; subst hu; subst hl; rfl
  · intro t hu hl hc; subst hu; subst hl; subst hc; rfl

/-- Witness for C9: UTF-8 and latin-1 fail, cp1252 succeeds. -/
theorem claim_C9_encoding_chain_witness :
    (load_poverty_csv (none : Option Nat) none (some 7)).1.isSome
    ∧ (∀ t, (none : Option Nat) = some t →
        load_poverty_csv (none : Option Nat) none (some 7) = (some t, 0))
    ∧ (∀ t, (none : Option Nat) = none → (none : Option Nat) = some t →
        load_poverty_csv (none : Option Nat) none (some 7) = (some t, 1))
    ∧ (∀ t, (none : Option Nat) = none → (none : Option Nat) = none → some 7 = some t →
        load_poverty_csv (none : Option Nat) none (some 7) = (some t, 2)) :=
  claim_C9_encoding_chain (none : Option Nat) none (some 7) (by decide)

/-- Claim C10: latin-1 decoding is total over byte sequences, so the cp1252
branch of the fallback chain is unreachable and the loader can never end in
a decode error, whatever the UTF-8 decoder did. -/
theorem claim_C10_latin1_total (bs : List Nat) (hbytes : ∀ b ∈ bs, b < 256)
    (utf8 : Option (List Nat)) (cp1252 : Option (List Nat)) :
    latin1_decode bs = some bs
    ∧ (load_poverty_csv utf8 (latin1_decode bs) cp1252).1.isSome
    ∧ (load_poverty_csv utf8 (latin1_decode bs) cp1252).2 ≤ 1 := by
  have hdec : latin1_decode bs = some bs := by
    unfold latin1_decode
    rw [if_pos (List.all_eq_true.mpr (fun b hb => decide_eq_true (hbytes b hb)))]
  refine ⟨hdec, ?_, ?_⟩ <;> rw [hdec] <;> cases utf8 <;> simp [load_poverty_csv]

/-- Witness for C10 on the bytes [72, 101, 255] with a failing UTF-8 pass. -/
theorem claim_C10_latin1_total_witness :
    latin1_decode [72, 101, 255] = some [72, 101, 255]
    ∧ (load_poverty_csv none (latin1_decode [72, 101, 255]) none).1.isSome
    ∧ (load_poverty_csv none (latin1_decode [72, 101, 255]) none).2 ≤ 1 :=
  claim_C10_latin1_total [72, 101, 255] (by decide) none none

/-! ## census_bg_download.py — batched ACS variable fetch and merge

`var_batches = [variables[i:i + batch_size] for i in range(0, len(variables), batch_size)]`
partitions the variable list into consecutive slices.  The per-county loop
calls `fetch_acs_batch` once per batch; a truthy response is merged:
the first one is stored whole, each later one extends every data row
(row index ≥ 1) with `batch_data[row_idx][1:-4]`, i.e. the row minus its
leading NAME column and its trailing state/county/tract/block-group
columns.  A falsy response (None after exhausted retries, or an empty
list) is skipped and the loop continues with the next batch.  Like the
range loop, the slicing recursion is fuelled by the list length, which
bounds the number of slices whenever the batch size is positive
(`batch_size = 100` in the script).
-/

def chunkAux {α : Type} (B : Nat) : Nat → List α → List (List α)
  | _, [] => []
  | 0, _ :: _ => []
  | fuel + 1, x :: xs => (x :: xs).take B :: chunkAux B fuel ((x :: xs).drop B)

def chunkList {α : Type} (B : Nat) (l : List α) : List (List α) :=
  chunkAux B l.length l

theorem chunkAux_succ {α : Type} (B : Nat) (hB : 0 < B) :
    ∀ fuel (l : List α), l.length ≤ fuel → chunkAux B (fuel + 1) l = chunkAux B fuel l := by
  intro fuel
  induction fuel with
  | zero =>
    intro l h
    have hl : l = [] := List.eq_nil_of_length_eq_zero (by omega)
    subst hl
    rfl
  | succ n ih =>
    intro l h
    cases l with
    | nil => rfl
    | cons x xs =>
      show (x :: xs).take B :: chunkAux B (n + 1) ((x :: xs).drop B) = _
      refine congrArg ((x :: xs).take B :: ·) (ih ((x :: xs).drop B) ?_)
      rw [List.length_drop]
      simp at h ⊢
      omega

theorem chunkAux_fuel {α : Type} (B : Nat) (hB : 0 < B) :
    ∀ fuel (l : List α), l.length ≤ fuel → chunkAux B fuel l = chunkList B l := by
  intro fuel
  induction fuel with
  | zero =>
    intro l h
    have hl : l = [] := List.eq_nil_of_length_eq_zero (by omega)
    subst hl
    rfl
  | succ n ih =>
    intro l h
    by_cases he : l.length = n + 1
    · unfold chunkList
      rw [he]
    · have h' : l.length ≤ n := by omega
      rw [chunkAux_succ B hB n l h']
      exact ih l h'

theorem chunkList_cons {α : Type} (B : Nat) (hB : 0 < B) (x : α) (xs : List α) :
    chunkList B (x :: xs) = (x :: xs).take B :: chunkList B ((x :: xs).drop B) := by
  show chunkAux B (xs.length + 1) (x :: xs) = _
  show (x :: xs).take B :: chunkAux B xs.length ((x :: xs).drop B) = _
  refine congrArg ((x :: xs).take B :: ·) (chunkAux_fuel B hB xs.length _ ?_)
  rw [List.length_drop]
  simp
  omega

/-- The slices reassemble to the original variable list. -/
theorem chunkList_flatten {α : Type} (B : Nat) (hB : 0 < B) (l : List α) :
    (chunkList B l).flatten = l := by
  cases l with
  | nil => rfl
  | cons x xs =>
    rw [chunkList_cons B hB x xs, List.flatten_cons,
        chunkList_flatten B hB ((x :: xs).drop B), List.take_append_drop]
termination_by l.length
decreasing_by simp [List.length_drop]; omega

/-- The batched fetch issues `ceil(V / B)` requests: one slice per request. -/
theorem chunkList_length {α : Type} (B : Nat) (hB : 0 < B) (l : List α) :
    (chunkList B l).length = (l.length + B - 1) / B := by
  cases l with
  | nil =>
    show 0 = (0 + B - 1) / B
    exact (Nat.div_eq_of_lt (by omega)).symm
  | cons x xs =>
    rw [chunkList_cons B hB x xs, List.length_cons,
        chunkList_length B hB ((x :: xs).drop B), List.length_drop]
    rw [ceilDiv_succ B (x :: xs).length hB (by simp)]
termination_by l.length
decreasing_by simp [List.length_drop]; omega

/-- `row[1:-4]` — the batch row minus its NAME column and its four trailing
geography columns. -/
def rowSlice (b : List String) : List String :=
  (b.drop 1).take (b.length - 5)

/-- The merge loop `for row_idx in range(1, len(batch_data)):
all_data[row_idx].extend(batch_data[row_idx][1:-4])`, walking the
accumulated rows with their index.  (Indices of `batch` beyond the
accumulated length would raise IndexError in the source and are outside
the modelled domain.) -/
def mergeRowsFrom (batch : List (List String)) : Nat → List (List String) → List (List String)
  | _, [] => []
  | idx, row :: rest =>
    (if idx = 0 then row
     else
       match batch.get? idx with
       | some b => row ++ rowSlice b
       | none => row) :: mergeRowsFrom batch (idx + 1) rest

def mergeBatch (acc batch : List (List String)) : List (List String) :=
  mergeRowsFrom batch 0 acc

/-- One iteration of the county loop's accumulation: a falsy response
(None after exhausted retries, or an empty list) is skipped, the first
truthy response is stored whole, every later one is merged. -/
def countyStep (acc : List (List String)) (r : Option (List (List String))) :
    List (List String) :=
  match r with
  | none => acc
  | some bd => if bd.isEmpty then acc else if acc.isEmpty then bd else mergeBatch acc bd

/-- The `all_data` table accumulated by the county loop. -/
def countyAllData (results : List (Option (List (List String)))) : List (List String) :=
  results.foldl countyStep []

/-- Outcome of one county's batched fetch: a returned DataFrame (column
labels and data rows), the `return None` path, or an uncaught exception
terminating the run. -/
inductive CountyFetch where
  | frame (columns : List String) (rows : List (List String)) : CountyFetch
  | failure : CountyFetch
  | error : CountyFetch
deriving DecidableEq, Repr

/-- Position of the first column with the given label, as pandas label
lookup `df[colName]` resolves it on a duplicate-free header. -/
def colIdx : List String → String → Nat
  | [], _ => 0
  | h :: t, colName => if h = colName then 0 else colIdx t colName + 1

/-- The GEOID value `df["state"].str.zfill(2) + df["county"].str.zfill(3) +
df["tract"].str.zfill(6) + df["block group"]` computed for one data row. -/
def geoidOfRow (header row : List String) : String :=
  bg_acs_geoid (row.getD (colIdx header "state") "")
    (row.getD (colIdx header "county") "")
    (row.getD (colIdx header "tract") "")
    (row.getD (colIdx header "block group") "")

/-- One county's batched fetch, `fetch_acs_data_for_county`: fold the batch
responses into `all_data`, then `return None` if nothing was accumulated,
else build `pd.DataFrame(all_data[1:], columns=all_data[0])` — which raises
ValueError unless every data row has exactly as many entries as the header
has labels — and assign `df["GEOID"]` from the four geography columns,
which raises KeyError if one of them is absent from the header; both
exceptions are uncaught and abort the run (`error`).  On success the frame
gains the derived GEOID column. -/
def fetch_acs_data_for_county (results : List (Option (List (List String)))) :
    CountyFetch :=
  match countyAllData results with
  | [] => CountyFetch.failure
  | header :: rows =>
    if rows.all (fun r => decide (r.length = header.length)) then
      if "state" ∈ header ∧ "county" ∈ header ∧ "tract" ∈ header ∧ "block group" ∈ header then
        CountyFetch.frame (header ++ ["GEOID"])
          (rows.map (fun r => r ++ [geoidOfRow header r]))
      else CountyFetch.error
    else CountyFetch.error

/-- An ACS response for one variable batch: header row, then one row per
geography `r` holding NAME, the requested variables' values, and the
state/county/tract/block-group columns — same geographies in the same
order for every batch. -/
def mkResponse (name st cty tr bg : Nat → String) (val : Nat → String → String)
    (R : Nat) (batch : List String) : List (List String) :=
  (("NAME" :: batch) ++ ["state", "county", "tract", "block group"]) ::
  (List.range R).map (fun r => (name r :: batch.map (val r)) ++ [st r, cty r, tr r, bg r])

theorem length_mergeRowsFrom (batch : List (List String)) :
    ∀ idx rows, (mergeRowsFrom batch idx rows).length = rows.length := by
  intro idx rows
  induction rows generalizing idx with
  | nil => rfl
  | cons row rest ih => simp [mergeRowsFrom, ih]

theorem get?_mergeRowsFrom (batch : List (List String)) :
    ∀ rows idx k,
      (mergeRowsFrom batch idx rows).get? k = (rows.get? k).map (fun row =>
        if idx + k = 0 then row
        else
          match batch.get? (idx + k) with
          | some b => row ++ rowSlice b
          | none => row) := by
  intro rows
  induction rows with
  | nil => intro idx k; rfl
  | cons row rest ih =>
    intro idx k
    cases k with
    | zero => simp [mergeRowsFrom]
    | succ m =>
      show (mergeRowsFrom batch (idx + 1) rest).get? m = _
      rw [ih (idx + 1) m]
      show _ = (rest.get? m).map _
      refine congrArg (Option.map · (rest.get? m)) ?_
      funext r
      rw [show idx + 1 + m = idx + (m + 1) by omega]

theorem rowSlice_mkResponse_length (vs : List String)
    (geo : List String) (hgeo : geo.length = 4) (nm : String) :
    (rowSlice ((nm :: vs) ++ geo)).length = vs.length := by
  unfold rowSlice
  rw [List.length_take, List.length_drop]
  simp [hgeo]

theorem mkResponse_isEmpty (name st cty tr bg : Nat → String) (val : Nat → String → String)
    (R : Nat) (c : List String) :
    (mkResponse name st cty tr bg val R c).isEmpty = false := rfl

theorem mkResponse_get?_succ (name st cty tr bg : Nat → String) (val : Nat → String → String)
    (R : Nat) (c : List String) (m : Nat) (hm : m < R) :
    (mkResponse name st cty tr bg val R c).get? (m + 1) =
      some ((name m :: c.map (val m)) ++ [st m, cty m, tr m, bg m]) := by
  show ((List.range R).map _).get? m = _
  simp [List.get?_eq_getElem?, List.getElem?_map, List.getElem?_range, hm]

/-- One iteration of the per-county batch loop, specialised to a successful
batch: a truthy response is stored whole if the accumulator is empty and
merged otherwise. -/
def mergeStep (name st cty tr bg : Nat → String) (val : Nat → String → String)
    (R : Nat) (a : List (List String)) (c : List String) : List (List String) :=
  let bd := mkResponse name st cty tr bg val R c
  if bd.isEmpty then a else if a.isEmpty then bd else mergeBatch a bd

theorem mergeStep_of_ne (name st cty tr bg : Nat → String) (val : Nat → String → String)
    (R : Nat) (a : List (List String)) (c : List String) (ha : a.isEmpty = false) :
    mergeStep name st cty tr bg val R a c =
      mergeBatch a (mkResponse name st cty tr bg val R c) := by
  unfold mergeStep
  simp only [mkResponse_isEmpty, ha, Bool.false_eq_true, if_false]

/-- Length invariant of the per-county merge fold: starting from an
accumulator of `R + 1` rows whose data rows have width `n + 5`, merging the
responses for variable slices `cs` yields data rows of width
`n + (total variables in cs) + 5`. -/
theorem fold_merge_spec (name st cty tr bg : Nat → String) (val : Nat → String → String)
    (R : Nat) :
    ∀ (cs : List (List String)) (acc : List (List String)) (n : Nat),
      acc.length = R + 1 →
      (∀ k, 1 ≤ k → k ≤ R → ∃ row, acc.get? k = some row ∧ row.length = n + 5) →
      (cs.foldl (mergeStep name st cty tr bg val R) acc).length = R + 1
      ∧ ∀ k, 1 ≤ k → k ≤ R →
          ∃ row, (cs.foldl (mergeStep name st cty tr bg val R) acc).get? k = some row
            ∧ row.length = n + ((cs.map List.length).sum + 5) := by
  intro cs
  induction cs with
  | nil =>
    intro acc n h1 h2
    refine ⟨h1, fun k hk1 hk2 => ?_⟩
    obtain ⟨row, hr1, hr2⟩ := h2 k hk1 hk2
    exact ⟨row, hr1, by simpa using hr2⟩
  | cons c cs ih =>
    intro acc n h1 h2
    have haccne : acc.isEmpty = false := by
      cases acc with
      | nil =>
        exfalso
        simp only [List.length_nil] at h1
        omega
      | cons a as => rfl
    rw [List.foldl_cons, mergeStep_of_ne name st cty tr bg val R acc c haccne]
    have hmlen : (mergeBatch acc (mkResponse name st cty tr bg val R c)).length = R + 1 := by
      rw [mergeBatch, length_mergeRowsFrom, h1]
    have hmrows : ∀ k, 1 ≤ k → k ≤ R →
        ∃ row, (mergeBatch acc (mkResponse name st cty tr bg val R c)).get? k = some row ∧
          row.length = (n + c.length) + 5 := by
      intro k hk1 hk2
      obtain ⟨row, hr1, hr2⟩ := h2 k hk1 hk2
      have hb := mkResponse_get?_succ name st cty tr bg val R c (k - 1) (by omega)
      rw [show k - 1 + 1 = k by omega] at hb
      refine ⟨row ++ rowSlice ((name (k-1) :: c.map (val (k-1))) ++
        [st (k-1), cty (k-1), tr (k-1), bg (k-1)]), ?_, ?_⟩
      · rw [mergeBatch, get?_mergeRowsFrom, hr1, Option.map_some']
        rw [show (0 : Nat) + k = k by omega]
        rw [if_neg (by omega), hb]
      · rw [List.length_append, hr2,
            rowSlice_mkResponse_length (c.map (val (k-1))) _ (by rfl) (name (k-1)),
            List.length_map]
        omega
    obtain ⟨hl, hr⟩ := ih (mergeBatch acc (mkResponse name st cty tr bg val R c))
      (n + c.length) hmlen hmrows
    refine ⟨hl, fun k hk1 hk2 => ?_⟩
    obtain ⟨row, hg1, hg2⟩ := hr k hk1 hk2
    refine ⟨row, hg1, ?_⟩
    rw [hg2, List.map_cons, List.sum_cons]
    omega

/-- The merge fold never touches row 0: the header row stays the first
batch's header. -/
theorem fold_merge_head (name st cty tr bg : Nat → String) (val : Nat → String → String)
    (R : Nat) :
    ∀ (cs : List (List String)) (acc : List (List String)), acc.length = R + 1 →
      (cs.foldl (mergeStep name st cty tr bg val R) acc).get? 0 = acc.get? 0 := by
  intro cs
  induction cs with
  | nil => intro acc _; rfl
  | cons c cs ih =>
    intro acc h1
    have haccne : acc.isEmpty = false := by
      cases acc with
      | nil =>
        exfalso
        simp only [List.length_nil] at h1
        omega
      | cons a as => rfl
    rw [List.foldl_cons, mergeStep_of_ne name st cty tr bg val R acc c haccne]
    have hmlen : (mergeBatch acc (mkResponse name st cty tr bg val R c)).length = R + 1 := by
      rw [mergeBatch, length_mergeRowsFrom, h1]
    rw [ih (mergeBatch acc (mkResponse name st cty tr bg val R c)) hmlen]
    rw [mergeBatch, get?_mergeRowsFrom]
    cases acc.get? 0 <;> simp

/-- When the accumulated table's header disagrees in width with some data
row, `pd.DataFrame(all_data[1:], columns=all_data[0])` raises ValueError
and the county fetch aborts. -/
theorem fetch_error_of_width_mismatch (results : List (Option (List (List String))))
    (header : List String) (rows : List (List String)) (row : List String)
    (hAD : countyAllData results = header :: rows)
    (hrow : row ∈ rows) (hne : row.length ≠ header.length) :
    fetch_acs_data_for_county results = CountyFetch.error := by
  unfold fetch_acs_data_for_county
  rw [hAD]
  have hall : (rows.all fun r => decide (r.length = header.length)) = false := by
    cases hallc : (rows.all fun r => decide (r.length = header.length)) with
    | false => rfl
    | true =>
      have hc := List.all_eq_true.mp hallc row hrow
      simp only [decide_eq_true_eq] at hc
      exact absurd hc hne
  simp only [hall, Bool.false_eq_true, if_false]

/-- Claim C4 describes the intended outcome of the batched fetch: ceil(V/B)
batches with one request each, and — every batch succeeding with the same
geographies in the same order — a merged table whose every row carries the
V variables plus the fixed identifier columns.  The code gets the
partitioning right and its merge loop does widen every data row to V + 5,
but the loop starts at row index 1 and never extends the header, which
keeps the first batch's width min(B,V) + 5; consequently, whenever the
variables span more than one batch (B < V) and at least one geography row
exists, `pd.DataFrame(all_data[1:], columns=all_data[0])` raises
ValueError and the fetcher aborts instead of returning the merged
dataset. -/
theorem claim_C4_batched_fetch (vars : List String) (B R : Nat)
    (hB : 0 < B) (hBV : B < vars.length)
    (name st cty tr bg : Nat → String) (val : Nat → String → String) :
    (chunkList B vars).length = (vars.length + B - 1) / B
    ∧ (countyAllData ((chunkList B vars).map
        (fun c => some (mkResponse name st cty tr bg val R c)))).length = R + 1
    ∧ (∀ k, 1 ≤ k → k ≤ R → ∃ row,
        (countyAllData ((chunkList B vars).map
          (fun c => some (mkResponse name st cty tr bg val R c)))).get? k = some row
        ∧ row.length = vars.length + 5)
    ∧ (∃ hdr, (countyAllData ((chunkList B vars).map
        (fun c => some (mkResponse name st cty tr bg val R c)))).get? 0 = some hdr
        ∧ hdr.length = B + 5 ∧ hdr.length < vars.length + 5)
    ∧ (1 ≤ R → fetch_acs_data_for_county ((chunkList B vars).map
        (fun c => some (mkResponse name st cty tr bg val R c))) = CountyFetch.error) := by
  obtain ⟨x, xs, rfl⟩ : ∃ y ys, vars = y :: ys := by
    cases vars with
    | nil => exact absurd hBV (by simp)
    | cons y ys => exact ⟨y, ys, rfl⟩
  have hc₁len : ((x :: xs).take B).length = B := by
    rw [List.length_take]
    simp only [List.length_cons] at hBV ⊢
    omega
  have hAD : countyAllData ((chunkList B (x :: xs)).map
      (fun c => some (mkResponse name st cty tr bg val R c))) =
      (chunkList B ((x :: xs).drop B)).foldl (mergeStep name st cty tr bg val R)
        (mkResponse name st cty tr bg val R ((x :: xs).take B)) := by
    rw [chunkList_cons B hB x xs]
    unfold countyAllData
    rw [List.map_cons, List.foldl_cons, List.foldl_map]
    have hlam : (fun (acc : List (List String)) (c : List String) =>
        countyStep acc (some (mkResponse name st cty tr bg val R c))) =
        mergeStep name st cty tr bg val R := by
      funext a c
      rfl
    rw [hlam]
    have hfirst : countyStep [] (some (mkResponse name st cty tr bg val R ((x :: xs).take B)))
        = mkResponse name st cty tr bg val R ((x :: xs).take B) := by
      simp [countyStep, mkResponse_isEmpty]
    rw [hfirst]
  have hinit1 : (mkResponse name st cty tr bg val R ((x :: xs).take B)).length = R + 1 := by
    unfold mkResponse
    rw [List.length_cons, List.length_map, List.length_range]
  have hinit2 : ∀ k, 1 ≤ k → k ≤ R →
      ∃ row, (mkResponse name st cty tr bg val R ((x :: xs).take B)).get? k = some row ∧
        row.length = ((x :: xs).take B).length + 5 := by
    intro k hk1 hk2
    have hb := mkResponse_get?_succ name st cty tr bg val R ((x :: xs).take B) (k - 1) (by omega)
    rw [show k - 1 + 1 = k by omega] at hb
    refine ⟨_, hb, ?_⟩
    rw [List.length_append, List.length_cons, List.length_map]
    simp
  obtain ⟨hflen, hfrows⟩ := fold_merge_spec name st cty tr bg val R
    (chunkList B ((x :: xs).drop B)) (mkResponse name st cty tr bg val R ((x :: xs).take B))
    ((x :: xs).take B).length hinit1 hinit2
  have hhead := fold_merge_head name st cty tr bg val R
    (chunkList B ((x :: xs).drop B)) (mkResponse name st cty tr bg val R ((x :: xs).take B))
    hinit1
  have hsum : ((x :: xs).take B).length +
      ((chunkList B ((x :: xs).drop B)).map List.length).sum = (x :: xs).length := by
    have hflat := chunkList_flatten B hB (x :: xs)
    rw [chunkList_cons B hB x xs, List.flatten_cons] at hflat
    have hlen := congrArg List.length hflat
    rw [List.length_append, List.length_flatten] at hlen
    exact hlen
  have hhdr0 : (mkResponse name st cty tr bg val R ((x :: xs).take B)).get? 0 =
      some ((("NAME" :: (x :: xs).take B) ++ ["state", "county", "tract", "block group"])) := rfl
  have hhdrlen : ((("NAME" :: (x :: xs).take B) ++
      ["state", "county", "tract", "block group"]) : List String).length = B + 5 := by
    rw [List.length_append, List.length_cons, hc₁len]
    rfl
  refine ⟨chunkList_length B hB (x :: xs), ?_, ?_, ?_, ?_⟩
  · rw [hAD]
    exact hflen
  · intro k hk1 hk2
    obtain ⟨row, hg1, hg2⟩ := hfrows k hk1 hk2
    rw [hAD]
    refine ⟨row, hg1, ?_⟩
    rw [hg2]
    omega
  · rw [hAD, hhead, hhdr0]
    refine ⟨_, rfl, hhdrlen, ?_⟩
    rw [hhdrlen]
    simp only [List.length_cons] at hBV ⊢
    omega
  · intro hR
    obtain ⟨row1, hg1, hg2⟩ := hfrows 1 (le_refl 1) hR
    cases hF : (chunkList B ((x :: xs).drop B)).foldl (mergeStep name st cty tr bg val R)
        (mkResponse name st cty tr bg val R ((x :: xs).take B)) with
    | nil =>
      exfalso
      rw [hF, List.length_nil] at hflen
      omega
    | cons h t =>
      rw [hF] at hg1 hhead
      have hh : h = ("NAME" :: (x :: xs).take B) ++ ["state", "county", "tract", "block group"] :=
        Option.some.inj (hhead.trans hhdr0)
      have hmem : row1 ∈ t := by
        cases t with
        | nil => exact absurd hg1 (by simp)
        | cons r2 t2 =>
          have hr2 : r2 = row1 := Option.some.inj hg1
          rw [← hr2]
          exact List.mem_cons_self r2 t2
      refine fetch_error_of_width_mismatch _ h t row1 (hAD.trans hF) hmem ?_
      rw [hg2, hh, hhdrlen]
      omega

/-- Witness for C4: three variables split over batch size 2 (two batches),
one geography row; the fetch ends in the uncaught ValueError. -/
theorem claim_C4_batched_fetch_witness :
    (chunkList 2 ["V1", "V2", "V3"]).length = ((["V1", "V2", "V3"] : List String).length + 2 - 1) / 2
    ∧ (countyAllData ((chunkList 2 ["V1", "V2", "V3"]).map
        (fun c => some (mkResponse (fun _ => "nm") (fun _ => "36") (fun _ => "005")
          (fun _ => "000100") (fun _ => "1") (fun _ v => v) 1 c)))).length = 1 + 1
    ∧ (∀ k, 1 ≤ k → k ≤ 1 → ∃ row,
        (countyAllData ((chunkList 2 ["V1", "V2", "V3"]).map
          (fun c => some (mkResponse (fun _ => "nm") (fun _ => "36") (fun _ => "005")
            (fun _ => "000100") (fun _ => "1") (fun _ v => v) 1 c)))).get? k = some row
        ∧ row.length = (["V1", "V2", "V3"] : List String).length + 5)
    ∧ (∃ hdr, (countyAllData ((chunkList 2 ["V1", "V2", "V3"]).map
        (fun c => some (mkResponse (fun _ => "nm") (fun _ => "36") (fun _ => "005")
          (fun _ => "000100") (fun _ => "1") (fun _ v => v) 1 c)))).get? 0 = some hdr
        ∧ hdr.length = 2 + 5 ∧ hdr.length < (["V1", "V2", "V3"] : List String).length + 5)
    ∧ (1 ≤ 1 → fetch_acs_data_for_county ((chunkList 2 ["V1", "V2", "V3"]).map
        (fun c => some (mkResponse (fun _ => "nm") (fun _ => "36") (fun _ => "005")
          (fun _ => "000100") (fun _ => "1") (fun _ v => v) 1 c))) = CountyFetch.error) :=
  claim_C4_batched_fetch ["V1", "V2", "V3"] 2 1 (by decide) (by decide)
    (fun _ => "nm") (fun _ => "36") (fun _ => "005") (fun _ => "000100") (fun _ => "1")
    (fun _ v => v)

/-- Claim C6 says a failed batch makes the whole county fetch fail and that
no caught failure is silently continued past.  Here batch 1 of 2 fails
(None after exhausted retries) and only batch 2 survives: the `if
batch_data:` guard silently skips the failure, the surviving single batch
keeps header and rows consistent, the DataFrame constructs, and the county
fetch returns a frame that is simply missing the failed batch's variables —
no failure signal, no diagnostic, not the claimed failure of the county
fetch.  (With two or more surviving batches the run instead dies of the
unrelated header-width ValueError established for C4.) -/
theorem claim_C6_failed_batch_swallowed :
    fetch_acs_data_for_county
      [none,
       some [["NAME", "V2", "state", "county", "tract", "block group"],
             ["g0", "x2", "36", "005", "000100", "1"]]]
      = CountyFetch.frame
          ["NAME", "V2", "state", "county", "tract", "block group", "GEOID"]
          [["g0", "x2", "36", "005", "000100", "1", "360050001001"]]
    ∧ fetch_acs_data_for_county
        [none,
         some [["NAME", "V2", "state", "county", "tract", "block group"],
               ["g0", "x2", "36", "005", "000100", "1"]]] ≠ CountyFetch.failure
    ∧ fetch_acs_data_for_county
        [none,
         some [["NAME", "V2", "state", "county", "tract", "block group"],
               ["g0", "x2", "36", "005", "000100", "1"]]] ≠ CountyFetch.error := by
  refine ⟨by decide, by decide, by decide⟩


/-! ## census_download.py / census_bg_download.py — GEOID left join

`tiger_gdf.merge(acs_df, on="GEOID", how="left")` and
`gdf_boundaries.merge(df_acs, on="GEOID", how="left")` perform a pandas
left-outer join: for each left (boundary) row, the result holds one output
row per matching right (tabular) row — sharing the boundary attributes —
or a single row with null right attributes when nothing matches.  Rows are
modelled as key/payload pairs; the joined payload is `Option`-valued to
express nulls. -/

def left_merge_row {K A B : Type} [DecidableEq K] (right : List (K × B)) (l : K × A) :
    List (K × A × Option B) :=
  let ms := right.filter (fun r => decide (r.1 = l.1))
  if ms.isEmpty then [(l.1, l.2, none)] else ms.map (fun r => (l.1, l.2, some r.2))

def left_merge {K A B : Type} [DecidableEq K] (left : List (K × A)) (right : List (K × B)) :
    List (K × A × Option B) :=
  left.flatMap (left_merge_row right)

theorem left_merge_row_length {K A B : Type} [DecidableEq K] (right : List (K × B)) (l : K × A)
    (h : (right.filter (fun r => decide (r.1 = l.1))).length ≤ 1) :
    (left_merge_row right l).length = 1 := by
  unfold left_merge_row
  cases hms : right.filter (fun r => decide (r.1 = l.1)) with
  | nil => rfl
  | cons m ms =>
    rw [hms] at h
    simp only [List.isEmpty_cons, Bool.false_eq_true, if_false, List.length_map]
    simp only [List.length_cons] at h ⊢
    omega

/-- Counterexample to claim C5 as stated: when two tabular rows share the
boundary row's code, the pandas left join duplicates the boundary row, so
the merged length exceeds the boundary length. -/
theorem claim_C5_counterexample :
    ¬ ((left_merge [((0 : Nat), (0 : Nat))] [((0 : Nat), (1 : Nat)), (0, 2)]).length =
        ([((0 : Nat), (0 : Nat))] : List (Nat × Nat)).length) := by
  decide

/-- Claim C5, amended: for every boundary and tabular dataset, every
boundary feature is retained in the merge and a boundary row with no
matching tabular record carries null attribute values rather than being
dropped; and provided each boundary code matches at most one tabular row,
the left join returns exactly one row per boundary row
(`len(merged) == len(boundaries)`). -/
theorem claim_C5_left_join (K A B : Type) [DecidableEq K]
    (left : List (K × A)) (right : List (K × B)) :
    ((∀ l ∈ left, (right.filter (fun r => decide (r.1 = l.1))).length ≤ 1) →
      (left_merge left right).length = left.length)
    ∧ (∀ l ∈ left, ∃ b, (l.1, l.2, b) ∈ left_merge left right)
    ∧ (∀ l ∈ left, (∀ r ∈ right, r.1 ≠ l.1) →
        (l.1, l.2, (none : Option B)) ∈ left_merge left right) := by
  refine ⟨fun huniq => ?_, ?_, ?_⟩
  · unfold left_merge
    rw [List.length_flatMap]
    calc (left.map fun l => (left_merge_row right l).length).sum
        = (left.map fun _ => 1).sum := by
          exact congrArg List.sum (List.map_congr_left fun l hl =>
            left_merge_row_length right l (huniq l hl))
      _ = left.length := by
          rw [List.map_const', List.sum_replicate, smul_eq_mul, Nat.mul_one]
  · intro l hl
    have hseg : ∃ b, (l.1, l.2, b) ∈ left_merge_row right l := by
      unfold left_merge_row
      cases hms : right.filter (fun r => decide (r.1 = l.1)) with
      | nil => exact ⟨none, by simp⟩
      | cons m ms =>
        refine ⟨some m.2, ?_⟩
        simp only [List.isEmpty_cons, Bool.false_eq_true, if_false]
        exact List.mem_map.mpr ⟨m, List.mem_cons_self m ms, rfl⟩
    obtain ⟨b, hb⟩ := hseg
    exact ⟨b, List.mem_flatMap.mpr ⟨l, hl, hb⟩⟩
  · intro l hl hnone
    have hms : right.filter (fun r => decide (r.1 = l.1)) = [] := by
      rw [List.filter_eq_nil_iff]
      intro r hr
      simp only [decide_eq_true_eq]
      exact hnone r hr
    refine List.mem_flatMap.mpr ⟨l, hl, ?_⟩
    unfold left_merge_row
    rw [hms]
    simp

/-- Witness for the amended C5 on the spec's scenario shape: three boundary
rows, tabular rows for the first and third codes only. -/
theorem claim_C5_left_join_witness :
    ((∀ l ∈ ([((36005000100 : Nat), (10 : Nat)), (36047000200, 11), (36061000300, 12)]
          : List (Nat × Nat)),
        (([((36005000100 : Nat), (5 : Nat)), (36061000300, 7)] : List (Nat × Nat)).filter
          (fun r => decide (r.1 = l.1))).length ≤ 1) →
      (left_merge [((36005000100 : Nat), (10 : Nat)), (36047000200, 11), (36061000300, 12)]
        [((36005000100 : Nat), (5 : Nat)), (36061000300, 7)]).length =
        ([((36005000100 : Nat), (10 : Nat)), (36047000200, 11), (36061000300, 12)]
          : List (Nat × Nat)).length)
    ∧ (∀ l ∈ ([((36005000100 : Nat), (10 : Nat)), (36047000200, 11), (36061000300, 12)]
          : List (Nat × Nat)), ∃ b,
        (l.1, l.2, b) ∈ left_merge
          [((36005000100 : Nat), (10 : Nat)), (36047000200, 11), (36061000300, 12)]
          [((36005000100 : Nat), (5 : Nat)), (36061000300, 7)])
    ∧ (∀ l ∈ ([((36005000100 : Nat), (10 : Nat)), (36047000200, 11), (36061000300, 12)]
          : List (Nat × Nat)),
        (∀ r ∈ ([((36005000100 : Nat), (5 : Nat)), (36061000300, 7)] : List (Nat × Nat)),
          r.1 ≠ l.1) →
        (l.1, l.2, (none : Option Nat)) ∈ left_merge
          [((36005000100 : Nat), (10 : Nat)), (36047000200, 11), (36061000300, 12)]
          [((36005000100 : Nat), (5 : Nat)), (36061000300, 7)]) :=
  claim_C5_left_join Nat Nat Nat
    [((36005000100 : Nat), (10 : Nat)), (36047000200, 11), (36061000300, 12)]
    [((36005000100 : Nat), (5 : Nat)), (36061000300, 7)]

end Utilities
